import Mathlib

/-!
Verification development for the `prompting` library (src/src/lib/Prompt.ts and
src/src/lib/Generator.ts).  Strings are modelled as `List Char`; JavaScript
objects used as variable-binding maps are modelled as association lists in
insertion order (JS string-keyed objects preserve insertion order, and the
keys appearing here are non-numeric).  The two regular expressions of
`resolvePrompt` are embedded as deterministic matchers below; for the actual
patterns involved, which have word-character keys, backtracking greedy
matching coincides with maximal-munch matching (the character after each
greedy `\s*` run is never itself a whitespace character), so the embedding is
exact.
-/

namespace Prompting

/-- Word characters of the JavaScript regex class `\w`: ASCII letters, digits
and underscore. -/
def isWordChar (c : Char) : Bool :=
  (97 ≤ c.toNat && c.toNat ≤ 122) || (65 ≤ c.toNat && c.toNat ≤ 90) ||
  (48 ≤ c.toNat && c.toNat ≤ 57) || c.toNat == 95

/-- Whitespace characters of the JavaScript regex class `\s`: ASCII whitespace
plus the Unicode space separators, NBSP, line/paragraph separators and BOM. -/
def isJsSpace (c : Char) : Bool :=
  c.toNat == 32 || c.toNat == 9 || c.toNat == 10 || c.toNat == 11 ||
  c.toNat == 12 || c.toNat == 13 || c.toNat == 160 || c.toNat == 0x1680 ||
  (0x2000 ≤ c.toNat && c.toNat ≤ 0x200a) || c.toNat == 0x2028 ||
  c.toNat == 0x2029 || c.toNat == 0x202f || c.toNat == 0x205f ||
  c.toNat == 0x3000 || c.toNat == 0xfeff

/-- Match a literal character sequence `pat` at the start of `s`, returning
the remainder on success. -/
def litAt : List Char → List Char → Option (List Char)
  | [], s => some s
  | _ :: _, [] => none
  | p :: ps, c :: cs => if c = p then litAt ps cs else none

/-- Match the regex `{{\s*key\s*}}` (the substitution pattern of
`resolvePrompt` built from a binding key) at the start of `s`.  Returns the
matched text and the remainder.  For keys made of word characters this
maximal-munch matcher is exactly the JS regex. -/
def matchVarAt (key s : List Char) : Option (List Char × List Char) :=
  match litAt ['\x7b', '\x7b'] s with
  | none => none
  | some s1 =>
    match litAt key (s1.dropWhile isJsSpace) with
    | none => none
    | some s3 =>
      match litAt ['\x7d', '\x7d'] (s3.dropWhile isJsSpace) with
      | none => none
      | some s5 =>
        some ('\x7b' :: '\x7b' ::
              (s1.takeWhile isJsSpace ++ key ++
               (s3.takeWhile isJsSpace ++ ['\x7d', '\x7d'])), s5)

/-- Match the regex `{{\s*[\w]+\s*}}` (the unresolved-placeholder pattern of
`resolvePrompt`) at the start of `s`. -/
def matchPhAt (s : List Char) : Option (List Char × List Char) :=
  match litAt ['\x7b', '\x7b'] s with
  | none => none
  | some s1 =>
    let s2 := s1.dropWhile isJsSpace
    let w := s2.takeWhile isWordChar
    match w with
    | [] => none
    | _ :: _ =>
      let s3 := s2.dropWhile isWordChar
      match litAt ['\x7d', '\x7d'] (s3.dropWhile isJsSpace) with
      | none => none
      | some s5 =>
        some ('\x7b' :: '\x7b' ::
              (s1.takeWhile isJsSpace ++ w ++
               (s3.takeWhile isJsSpace ++ ['\x7d', '\x7d'])), s5)

/-- Expansion of a JS replacement string (`GetSubstitution`): `$$` is a
literal dollar, `$&` the matched text, a dollar followed by a backtick the
part of the subject before the match, a dollar followed by a quote the part
after it.  The pattern has no capture groups, so `$n` stays literal. -/
def expandDollar (matched pre post : List Char) : List Char → List Char
  | [] => []
  | [c] => [c]
  | c :: d :: rest2 =>
    if c = '$' then
      if d = '$' then '$' :: expandDollar matched pre post rest2
      else if d = '&' then matched ++ expandDollar matched pre post rest2
      else if d = Char.ofNat 96 then pre ++ expandDollar matched pre post rest2
      else if d = '\x27' then post ++ expandDollar matched pre post rest2
      else '$' :: expandDollar matched pre post (d :: rest2)
    else c :: expandDollar matched pre post (d :: rest2)

/-- One pass of `String.prototype.replace` with a global regex
`{{\s*key\s*}}` and replacement string `repl`.  `fuel` bounds the scan (one
unit per character of the remaining subject), `pre` is the part of the
original subject before the current position (needed for the replacement
patterns that refer to the context).  On a match the expanded replacement is
emitted and scanning resumes after the match; otherwise one character is
copied.  The pattern never matches the empty string, so the empty-match
advance rule of JS never fires. -/
def replGoF (key repl : List Char) : Nat → List Char → List Char → List Char
  | 0, _, _ => []
  | _ + 1, _, [] => []
  | f + 1, pre, c :: rest =>
    match matchVarAt key (c :: rest) with
    | some (m, post) =>
      expandDollar m pre post repl ++ replGoF key repl f (pre ++ m) post
    | none => c :: replGoF key repl f (pre ++ [c]) rest

/-- `prompt.replace(new RegExp(`{{\s*${key}\s*}}`, 'g'), value)` from
`resolvePrompt`: replace every occurrence of the placeholder pattern for
`key` in `s` by the (dollar-expanded) replacement `repl`. -/
def replaceAllVar (key repl s : List Char) : List Char :=
  replGoF key repl s.length [] s

/-- Scan for all matches of the global regex `{{\s*[\w]+\s*}}`, as
`prompt.match(/{{\s*[\w]+\s*}}/g)` does in `resolvePrompt`: leftmost match
first, scanning resumes after each match, and a position that does not start
a match is skipped.  Returns the list of matched placeholder tokens in order
of occurrence (`null` in JS corresponds to the empty list here). -/
def findUnboundF : Nat → List Char → List (List Char)
  | 0, _ => []
  | _ + 1, [] => []
  | f + 1, c :: rest =>
    match matchPhAt (c :: rest) with
    | some (m, post) => m :: findUnboundF f post
    | none => findUnboundF f rest

/-- The unresolved-placeholder tokens of `s`, in order of occurrence. -/
def findUnbound (s : List Char) : List (List Char) :=
  findUnboundF s.length s

/-- `Array.prototype.join` with separator `sep`. -/
def joinSep (sep : List Char) : List (List Char) → List Char
  | [] => []
  | [x] => x
  | x :: xs => x ++ sep ++ joinSep sep xs

mutual
/-- JSON schema descriptions as accepted by the library: `object` nodes with
properties (insertion-ordered) and a `required` list, `array` nodes with an
item schema, and primitive nodes carrying their `type` string (an invalid
type string is representable; the external compiler rejects it).  The
property list is spelled as the mutual type `JProps` (a cons-list of
name/schema pairs) so that the recursive source functions can be translated
by structural recursion. -/
inductive JSchema where
  | jobject (props : JProps) (required : List (List Char))
  | jarray (items : JSchema)
  | jprim (ty : List Char)

/-- Insertion-ordered property list of an object schema node. -/
inductive JProps where
  | pnil
  | pcons (name : List Char) (s : JSchema) (tl : JProps)
end

mutual
/-- JavaScript values produced by `describeSchema` and consumed by
`JSON.stringify`: strings, arrays and plain objects (element and member
lists are spelled as the mutual cons-list types `JItems` and `JFields`). -/
inductive JVal where
  | str (s : List Char)
  | arr (xs : JItems)
  | obj (fs : JFields)

/-- Elements of a JS array value. -/
inductive JItems where
  | inil
  | icons (v : JVal) (tl : JItems)

/-- Members of a JS object value, in insertion order. -/
inductive JFields where
  | fnil
  | fcons (k : List Char) (v : JVal) (tl : JFields)
end

/-- The `type` field of a schema node, as read by `describeSchema`. -/
def schemaTypeName : JSchema → List Char
  | .jobject _ _ => "object".toList
  | .jarray _ => "array".toList
  | .jprim t => t

mutual
/-- `describeSchema(schema)` from `Prompt.ts`: an object maps each property
to its description, an array becomes a one-element array of the item
description when the item is an object and of the item type name otherwise,
and a primitive becomes its type name. -/
def describeSchema : JSchema → JVal
  | .jobject props _ => .obj (describeProps props)
  | .jarray (.jobject props _) => .arr (.icons (.obj (describeProps props)) .inil)
  | .jarray items => .arr (.icons (.str (schemaTypeName items)) .inil)
  | .jprim t => .str t

/-- The `for (const key in schema.properties)` loop of `describeSchema`. -/
def describeProps : JProps → JFields
  | .pnil => .fnil
  | .pcons k s tl => .fcons k (describeSchema s) (describeProps tl)
end

/-- Escape of one character inside a JSON string literal, as performed by
`JSON.stringify`. -/
def escapeJsonChar (c : Char) : List Char :=
  if c = '"' then ['\\', '"']
  else if c = '\\' then ['\\', '\\']
  else if c = '\x08' then ['\\', 'b']
  else if c = '\x09' then ['\\', 't']
  else if c = '\x0a' then ['\\', 'n']
  else if c = '\x0c' then ['\\', 'f']
  else if c = '\x0d' then ['\\', 'r']
  else if c.toNat < 32 then
    ['\\', 'u', '0', '0',
     (if c.toNat / 16 < 10 then Char.ofNat (48 + c.toNat / 16)
      else Char.ofNat (87 + c.toNat / 16)),
     (if c.toNat % 16 < 10 then Char.ofNat (48 + c.toNat % 16)
      else Char.ofNat (87 + c.toNat % 16))]
  else [c]

/-- A quoted JSON string literal. -/
def jquote (s : List Char) : List Char :=
  '"' :: (s.map escapeJsonChar).flatten ++ ['"']

mutual
/-- `JSON.stringify(value, null, 2)` with current indentation `ind`:
two-space indentation, each array element / object member on its own line,
a colon and a space after keys, empty array and object compact. -/
def jsonStr : JVal → List Char → List Char
  | .str s, _ => jquote s
  | .arr .inil, _ => ['[', ']']
  | .arr (.icons v tl), ind =>
    '[' :: '\n' :: ((ind ++ [' ', ' ']) ++ jsonStr v (ind ++ [' ', ' '])) ++
      jsonItems (ind ++ [' ', ' ']) tl ++ '\n' :: (ind ++ [']'])
  | .obj .fnil, _ => ['\x7b', '\x7d']
  | .obj (.fcons k v tl), ind =>
    '\x7b' :: '\n' ::
      ((ind ++ [' ', ' ']) ++ jquote k ++ ':' :: ' ' :: jsonStr v (ind ++ [' ', ' '])) ++
      jsonFields (ind ++ [' ', ' ']) tl ++ '\n' :: (ind ++ ['\x7d'])

/-- The remaining element lines of a stringified array, each preceded by a
comma and a newline. -/
def jsonItems : List Char → JItems → List Char
  | _, .inil => []
  | ind, .icons v tl =>
    ',' :: '\n' :: (ind ++ jsonStr v ind) ++ jsonItems ind tl

/-- The remaining member lines of a stringified object, each preceded by a
comma and a newline. -/
def jsonFields : List Char → JFields → List Char
  | _, .fnil => []
  | ind, .fcons k v tl =>
    ',' :: '\n' :: (ind ++ jquote k ++ ':' :: ' ' :: jsonStr v ind) ++
      jsonFields ind tl
end

/-- `JSON.stringify(v, null, 2)` at top level. -/
def jsonStringify (v : JVal) : List Char :=
  jsonStr v []

/-- Variable bindings: a JS object mapping template variable names to the
string form of their values (`String(value)` is what `String.replace`
substitutes for a non-string replacement value). -/
abbrev Bindings := List (List Char × List Char)

/-- First binding of key `k`, mirroring JS property lookup (the association
lists built from JS objects have unique keys). -/
def lookupVar : Bindings → List Char → Option (List Char)
  | [], _ => none
  | kv :: rest, k => if kv.1 = k then some kv.2 else lookupVar rest k

/-- Whether the object has key `k`. -/
def hasKey : Bindings → List Char → Bool
  | [], _ => false
  | kv :: rest, k => if kv.1 = k then true else hasKey rest k

/-- The JS object spread `{...d, ...v}`: keys of `d` in order with values
overridden by `v` where present, followed by the keys of `v` absent from `d`,
in order. -/
def mergeVars (d v : Bindings) : Bindings :=
  d.map (fun kv => (kv.1, (lookupVar v kv.1).getD kv.2)) ++
    v.filter (fun kv => !hasKey d kv.1)

/-- The substitution loop of `resolvePrompt`: fold the merged bindings over
the template, replacing each key in turn. -/
def substituteVars (t : List Char) (allVars : Bindings) : List Char :=
  allVars.foldl (fun acc kv => replaceAllVar kv.1 kv.2 acc) t

/-- The state of a `PromptClass` instance.  The generation backend is shared,
not owned; it is modelled as an opaque reference (a number).  The compiled
Ajv validator is modelled by the schema it was compiled from (field
`validator`); `none` means no validator has been compiled. -/
structure Prompt where
  text : Option (List Char)
  defaults : Bindings
  schema : Option JSchema
  vars : Option Bindings
  generator : Option Nat
  validator : Option JSchema
  format : List Char

/-- The `PromptOptions` record of the constructor. -/
structure PromptOptions where
  generator : Option Nat
  text : Option (List Char)
  schema : Option JSchema
  defaults : Option Bindings
  format : Option (List Char)

/-- The `PromptClass` constructor.  `ok` is the external Ajv compiler: `ok s`
tells whether `new Ajv().compile(s)` succeeds (it is deterministic in the
schema).  A compile failure means the `new` expression throws and no instance
is produced, hence the `Except`.  `options.defaults || {}` and
`options.format || 'json'` are modelled including the JS falsiness of the
empty string for the format. -/
def fromOpts (ok : JSchema → Bool) (o : PromptOptions) : Except Unit Prompt :=
  match o.schema with
  | none =>
    .ok ⟨o.text, o.defaults.getD [], none, none, o.generator, none,
         match o.format with
         | none => "json".toList
         | some f => if f = [] then "json".toList else f⟩
  | some s =>
    if ok s then
      .ok ⟨o.text, o.defaults.getD [], some s, none, o.generator, some s,
           match o.format with
           | none => "json".toList
           | some f => if f = [] then "json".toList else f⟩
    else .error ()

/-- The chainable `text(text)` method: assigns `this._text` in place. -/
def textSet (p : Prompt) (t : List Char) : Prompt :=
  { p with text := some t }

/-- The chainable `defaults(values)` method: replaces `this._defaults`
wholesale, in place. -/
def defaultsSet (p : Prompt) (d : Bindings) : Prompt :=
  { p with defaults := d }

/-- The chainable `schema(schema)` method: assigns `this._schema`, then
compiles the validator.  The result records the state of the (shared) object
after the call together with whether the call returned normally; when the
compile throws, `this._schema` has already been updated but `this._validator`
still holds the previous validator. -/
def schemaSet (ok : JSchema → Bool) (p : Prompt) (s : JSchema) : Prompt × Bool :=
  if ok s then ({ p with schema := some s, validator := some s }, true)
  else ({ p with schema := some s }, false)

/-- The chainable `using(generator)` method. -/
def usingGen (p : Prompt) (g : Nat) : Prompt :=
  { p with generator := some g }

/-- `toJSON()`: a plain record with only `text`, `defaults` and `schema`. -/
def toJSON (p : Prompt) : PromptOptions :=
  ⟨none, p.text, p.schema, some p.defaults, none⟩

/-- The `vars(vars)` method: constructs a fresh instance from
`{...this.toJSON()}` and sets `_vars` on it; `this` is not assigned to.  The
result pairs the state of the original object after the call with the
returned engine; the constructor may throw while recompiling the schema. -/
def varsMethod (ok : JSchema → Bool) (p : Prompt) (m : Bindings) :
    Except Unit (Prompt × Prompt) :=
  (fromOpts ok (toJSON p)).map (fun q => (p, { q with vars := some m }))

/-- `PromptClass.fromJSON(data, generator)`. -/
def fromJSON (ok : JSchema → Bool) (o : PromptOptions) (g : Nat) :
    Except Unit Prompt :=
  (fromOpts ok o).map (fun p => usingGen p g)

/-- The `\x7b\x7bname\x7d\x7d` directive appended by `resolvePrompt` when a
schema is configured. -/
def schemaDirective (fmt : List Char) (sch : JSchema) : List Char :=
  " Please provide a ".toList ++ fmt ++
    " response with the following structure:\n".toList ++
    jsonStringify (describeSchema sch)

/-- The missing-variables error message of `resolvePrompt`. -/
def missingVarsMsg (u : List (List Char)) : List Char :=
  "Missing template variables or default values: ".toList ++
    joinSep ", ".toList u

/-- `resolvePrompt(vars?)` of `Prompt.ts`: substitute
`{...this._defaults, ...(vars || this._vars)}` into the template key by key,
fail if any placeholder-shaped token remains, then append the schema
directive when a schema is configured.  A thrown `Error` is the `.error`
case, carrying the message. -/
def resolvePrompt (p : Prompt) (vars : Option Bindings) :
    Except (List Char) (List Char) :=
  let t := p.text.getD []
  let effective : Bindings :=
    match vars with
    | some v => v
    | none => p.vars.getD []
  let s := substituteVars t (mergeVars p.defaults effective)
  match findUnbound s with
  | [] =>
    .ok (match p.schema with
         | none => s
         | some sch => s ++ schemaDirective p.format sch)
  | u => .error (missingVarsMsg u)

/-- `toString()`: `resolvePrompt()` with no arguments. -/
def promptToString (p : Prompt) : Except (List Char) (List Char) :=
  resolvePrompt p none

/-- The error message thrown by `generate()` when no generator is bound. -/
def noGeneratorMsg : List Char :=
  ("No generator was provided yet. Use prompt.using(generator) to set a " ++
   "generator or use Generator.prompt() to create new prompts.").toList

/-- Outcome of `generate(vars?)` up to the backend invocation: the
no-generator precondition failure, a resolution failure, or the invocation of
the bound backend with the resolved text (the single awaited call). -/
inductive GenStart where
  | noGeneratorError (msg : List Char)
  | resolveFailed (msg : List Char)
  | backendInvoked (g : Nat) (prompt : List Char)
  deriving DecidableEq

/-- The control flow of `generate(vars?)` before the backend responds: the
generator check comes first, then `resolvePrompt(vars)`, then
`this._generator.execute(prompt)`. -/
def generateStart (p : Prompt) (vars : Option Bindings) : GenStart :=
  match p.generator with
  | none => .noGeneratorError noGeneratorMsg
  | some g =>
    match resolvePrompt p vars with
    | .error m => .resolveFailed m
    | .ok t => .backendInvoked g t

/-- The validation-failure message of `validate(data)`, joining the messages
of every error the compiled validator reports. -/
def invalidDataMsg (errs : List (List Char)) : List Char :=
  "Invalid data: ".toList ++ joinSep ", ".toList errs

/-- Modelled from the spec: the compiled validator is the external Ajv
capability, which is not part of this repository.  Per the specification of
the Schema Projector it takes a decoded candidate value and returns pass/fail
plus the list of field-level diagnostic messages; `errorsOf` gives that list,
and validation passes exactly when it is empty.  `validate(data)` of
`Prompt.ts` throws `Invalid data: ...` joining the reported messages. -/
def validateData (errorsOf : JVal → List (List Char)) (d : JVal) :
    Except (List Char) Unit :=
  if errorsOf d = [] then .ok () else .error (invalidDataMsg (errorsOf d))

/-- Result of a completed `generate()` call: raw backend text when no schema
is configured, otherwise the decoded and validated value. -/
inductive GenResult where
  | raw (t : List Char)
  | typed (v : JVal)

/-- The tail of `generate()` after the backend returned `textResp`: when both
a schema and a validator are present, `JSON.parse` the response (`decoded` is
the externally-computed parse, `none` when `JSON.parse` throws `err`) and
validate it; otherwise return the raw text. -/
def afterBackend (errorsOf : JVal → List (List Char)) (p : Prompt)
    (decoded : Option JVal) (textResp : List Char) (parseErr : List Char) :
    Except (List Char) GenResult :=
  match p.schema, p.validator with
  | some _, some _ =>
    match decoded with
    | none => .error parseErr
    | some d =>
      match validateData errorsOf d with
      | .ok _ => .ok (.typed d)
      | .error e => .error e
  | _, _ => .ok (.raw textResp)

/-- Template segments: a template string is literal text interleaved with
placeholders `\x7b\x7bname\x7d\x7d`. -/
inductive Seg where
  | lit (s : List Char)
  | ph (name : List Char)

/-- The rendered form of a placeholder for `name` (no inner whitespace). -/
def renderPh (n : List Char) : List Char :=
  '\x7b' :: '\x7b' :: (n ++ ['\x7d', '\x7d'])

/-- Render one segment. -/
def renderSeg : Seg → List Char
  | .lit s => s
  | .ph n => renderPh n

/-- Render a segment list into a template string. -/
def renderTpl (t : List Seg) : List Char :=
  (t.map renderSeg).flatten

/-- A string with no brace characters. -/
def noBraces (s : List Char) : Bool :=
  s.all (fun c => !(c = '\x7b') && !(c = '\x7d'))

/-- A string with no dollar characters (so it is immune to replacement
pattern expansion). -/
def noDollar (s : List Char) : Bool :=
  s.all (fun c => !(c = '$'))

/-- A well-formed placeholder name: nonempty, word characters only. -/
def wfName (n : List Char) : Bool :=
  !(n = []) && n.all isWordChar

/-- A well-formed segment: literal text is brace-free, placeholder names are
well formed. -/
def wfSeg : Seg → Bool
  | .lit s => noBraces s
  | .ph n => wfName n

/-- A well-formed template. -/
def wfTpl (t : List Seg) : Bool :=
  t.all wfSeg

/-- A well-formed binding: a word-character key, and a value free of braces
and dollars (so substitution inserts it verbatim and introduces no new
placeholder tokens). -/
def wfBinding (kv : List Char × List Char) : Bool :=
  wfName kv.1 && noBraces kv.2 && noDollar kv.2

/-- A well-formed binding set. -/
def wfBindings (bs : Bindings) : Bool :=
  bs.all wfBinding

/-- Substitution of one binding at the segment level. -/
def substSeg (key val : List Char) : Seg → Seg
  | .lit s => .lit s
  | .ph n => if n = key then .lit val else .ph n

/-- Substitution of a whole binding set at the segment level. -/
def substAll (bs : Bindings) (s : Seg) : Seg :=
  bs.foldl (fun x kv => substSeg kv.1 kv.2 x) s

/-- The placeholder token of a segment, if it is a placeholder. -/
def phToken : Seg → Option (List Char)
  | .lit _ => none
  | .ph n => some (renderPh n)

/-- The token a segment leaves unresolved under a binding set: a placeholder
whose name has no binding. -/
def unboundTok (bs : Bindings) : Seg → Option (List Char)
  | .lit _ => none
  | .ph n => if hasKey bs n then none else some (renderPh n)

/-- `replGoF` at its canonical fuel (the length of the subject); proofs step
through the replacement scan in this form. -/
def replRun (key repl pre s : List Char) : List Char :=
  replGoF key repl s.length pre s

/-- The sync property of §data-model: the compiled validator is the one
compiled from the stored schema (`none` paired with `none` when no schema is
set). -/
def inSync (p : Prompt) : Prop :=
  p.validator = p.schema

/-- The mutating operations of the engine, for reasoning about operation
sequences. -/
inductive Op where
  | opText (t : List Char)
  | opDefaults (d : Bindings)
  | opSchema (s : JSchema)
  | opVars (m : Bindings)
  | opUsing (g : Nat)

/-- One engine operation: the state to continue with, paired with whether the
call returned normally (a failed `schema` call throws after mutating; a
failed `vars` call throws inside the constructor, so the caller keeps the
original object). -/
def stepOp (ok : JSchema → Bool) (p : Prompt) : Op → Prompt × Bool
  | .opText t => (textSet p t, true)
  | .opDefaults d => (defaultsSet p d, true)
  | .opSchema s => schemaSet ok p s
  | .opVars m =>
    match varsMethod ok p m with
    | .ok q => (q.2, true)
    | .error _ => (p, false)
  | .opUsing g => (usingGen p g, true)

/-- Run a sequence of operations; the boolean records whether every call
returned normally. -/
def runOps (ok : JSchema → Bool) (p : Prompt) : List Op → Prompt × Bool
  | [] => (p, true)
  | op :: rest =>
    ((runOps ok (stepOp ok p op).1 rest).1,
     (stepOp ok p op).2 && (runOps ok (stepOp ok p op).1 rest).2)

/-- An Ajv compiler outcome that accepts every schema offered (all schemas
used with it in this development are valid JSON Schemas). -/
def okAll : JSchema → Bool := fun _ => true

/-- An Ajv compiler outcome that rejects the invalid schema
`{type: "bogus"}` (Ajv throws `schema is invalid` on an unknown type)
and accepts the rest. -/
def okRejectBogus : JSchema → Bool
  | .jprim t => !(t == "bogus".toList)
  | _ => true

/-- The schema `{type: "string"}`. -/
def stringSchema : JSchema := .jprim "string".toList

/-- The invalid schema `{type: "bogus"}`. -/
def bogusSchema : JSchema := .jprim "bogus".toList

/-- The schema of the repository test suite: an array of objects with
required string properties `title` and `year`. -/
def bookSchema : JSchema :=
  .jarray (.jobject
    (.pcons "title".toList (.jprim "string".toList)
      (.pcons "year".toList (.jprim "string".toList) .pnil))
    ["title".toList, "year".toList])

/-- `Prompt({})`: empty constructor options. -/
def emptyOpts : PromptOptions := ⟨none, none, none, none, none⟩

/-- The engine of the repository test suite, built by the same chain:
`Prompt({}).text(...).defaults({num: 3}).schema(bookSchema)`
`.vars({name: "George Orwell"})` (the numeric default `3` is
substituted as its string form `"3"`, which is what `String.replace` inserts
for a non-string value). -/
def c2Engine : Except Unit Prompt :=
  (fromOpts okAll emptyOpts).bind (fun p0 =>
    (varsMethod okAll
      ((schemaSet okAll
        (defaultsSet
          (textSet p0 "List \x7b\x7bnum\x7d\x7d books by \x7b\x7bname\x7d\x7d.".toList)
          [("num".toList, "3".toList)])
        bookSchema).1)
      [("name".toList, "George Orwell".toList)]).map Prod.snd)

/-- The exact text the repository test expects from `toString()`. -/
def c2Expected : List Char :=
  ("List 3 books by George Orwell. Please provide a json response with the " ++
   "following structure:\n[\n  \x7b\n    \"title\": \"string\",\n    " ++
   "\"year\": \"string\"\n  \x7d\n]").toList

/-- An engine whose template uses the same unbound placeholder twice. -/
def c1Prompt : Prompt :=
  ⟨some "\x7b\x7ba\x7d\x7d \x7b\x7ba\x7d\x7d".toList, [], none, none, none,
   none, "json".toList⟩

/-- A two-placeholder template with only its second placeholder bound. -/
def c1WitnessSegs : List Seg :=
  [.ph "a".toList, .lit " and ".toList, .ph "b".toList]

/-- Bindings covering only `b`. -/
def c1WitnessBindings : Bindings := [("b".toList, "1".toList)]

/-- An engine whose sole placeholder is bound, by a value that itself
contains a placeholder-shaped token. -/
def c7Prompt : Prompt :=
  ⟨some "\x7b\x7ba\x7d\x7d".toList,
   [("a".toList, "\x7b\x7bb\x7d\x7d".toList)], none, none, none, none,
   "json".toList⟩

/-- A covered template. -/
def c7WitnessSegs : List Seg :=
  [.lit "Hello ".toList, .ph "name".toList, .lit ".".toList]

/-- Bindings covering `name`. -/
def c7WitnessBindings : Bindings := [("name".toList, "World".toList)]

/-- An engine configured with the non-default response format `csv` and a
schema. -/
def csvPrompt : Prompt :=
  ⟨some "x".toList, [], some stringSchema, none, none, some stringSchema,
   "csv".toList⟩

/-- What `fromJSON(csvPrompt.toJSON(), generator 0)` reconstructs: the format
has fallen back to the default `json`. -/
def csvReconstructed : Prompt :=
  ⟨some "x".toList, [], some stringSchema, none, some 0, some stringSchema,
   "json".toList⟩

/-- A fully configured engine with the default `json` format. -/
def c3WitnessPrompt : Prompt :=
  ⟨some "y \x7b\x7bk\x7d\x7d".toList, [("k".toList, "v".toList)],
   some stringSchema, some [("k".toList, "w".toList)], some 9,
   some stringSchema, "json".toList⟩

/-- An engine holding a schema and its compiled validator. -/
def c4Prompt : Prompt :=
  ⟨none, [], some stringSchema, none, none, some stringSchema, "json".toList⟩

/-- The engine produced by the empty constructor. -/
def basePrompt : Prompt :=
  ⟨none, [], none, none, none, none, "json".toList⟩

/-- An operation sequence exercising every operation. -/
def c4WitnessOps : List Op :=
  [.opText "hi \x7b\x7ba\x7d\x7d".toList, .opSchema stringSchema,
   .opDefaults [("a".toList, "1".toList)], .opUsing 3,
   .opVars [("a".toList, "2".toList)], .opSchema bookSchema]

/-- An engine with no schema, shared between two holders. -/
def c5Prompt : Prompt :=
  ⟨some "t".toList, [], none, none, some 7, none, "json".toList⟩

/-- The engine `c5Prompt.vars({})` returns. -/
def c5Derived : Prompt :=
  ⟨some "t".toList, [], none, some [], none, none, "json".toList⟩

/-- An engine with a bound backend (reference 5). -/
def c6Prompt : Prompt :=
  ⟨some "hi".toList, [], none, none, some 5, none, "json".toList⟩

/-- The engine `c6Prompt.vars({})` returns: the backend reference is
gone, because `toJSON()` does not serialize it. -/
def c6Derived : Prompt :=
  ⟨some "hi".toList, [], none, some [], none, none, "json".toList⟩

/-- An engine with no bound backend and a template that cannot resolve. -/
def c8NoGen : Prompt :=
  ⟨some "\x7b\x7bx\x7d\x7d".toList, [], none, none, none, none,
   "json".toList⟩

/-- An engine with a bound backend. -/
def c8WithGen : Prompt :=
  ⟨some "hello".toList, [], none, none, some 1, none, "json".toList⟩

/-- The object schema with required string properties `result` and
`other`. -/
def resultSchema : JSchema :=
  .jobject
    (.pcons "result".toList (.jprim "string".toList)
      (.pcons "other".toList (.jprim "string".toList) .pnil))
    ["result".toList, "other".toList]

/-- Modelled from the spec: diagnostic reported by the external validator for
the first missing required property. -/
def c9Err1 : List Char := "must have required property result".toList

/-- Modelled from the spec: diagnostic reported by the external validator for
the second missing required property. -/
def c9Err2 : List Char := "must have required property other".toList

/-- Modelled from the spec: an external validator capability report for a
decoded value violating two constraints of `resultSchema`. -/
def errorsTwo : JVal → List (List Char) := fun _ => [c9Err1, c9Err2]

/-- An engine configured with `resultSchema` and its compiled validator. -/
def c9Prompt : Prompt :=
  ⟨some "p".toList, [], some resultSchema, none, some 1, some resultSchema,
   "json".toList⟩

/-- The template consisting of the single placeholder `a`. -/
def c10Tpl : List Char := "\x7b\x7ba\x7d\x7d".toList

/-- `a` bound to the replacement pattern `$&` (the matched text itself). -/
def c10DollarPrompt : Prompt :=
  ⟨some c10Tpl, [("a".toList, "$&".toList)], none, none, none, none,
   "json".toList⟩

/-- `a` bound to a placeholder token that a later binding then replaces. -/
def c10ChainPrompt : Prompt :=
  ⟨some c10Tpl, [("a".toList, "\x7b\x7bb\x7d\x7d".toList),
   ("b".toList, "X".toList)], none, none, none, none, "json".toList⟩

/-- `a` bound to a placeholder token whose name has no binding. -/
def c10MissPrompt : Prompt :=
  ⟨some c10Tpl, [("a".toList, "\x7b\x7bc\x7d\x7d".toList)], none, none, none,
   none, "json".toList⟩

theorem litAt_eq_some {p s r : List Char} (h : litAt p s = some r) :
    s = p ++ r := by
  induction p generalizing s with
  | nil =>
    simp only [litAt, Option.some.injEq] at h
    simp [h]
  | cons a ps ih =>
    cases s with
    | nil => simp [litAt] at h
    | cons c cs =>
      simp only [litAt] at h
      split at h
      · next hc =>
        subst hc
        simpa using ih h
      · exact absurd h (by simp)

theorem litAt_length_le {p s r : List Char} (h : litAt p s = some r) :
    r.length ≤ s.length := by
  have := litAt_eq_some h
  simp [this]

theorem litAt_cons_length_lt {a : Char} {p s r : List Char}
    (h : litAt (a :: p) s = some r) : r.length < s.length := by
  have := litAt_eq_some h
  simp [this]
  omega

theorem matchVarAt_length_lt {key s m r : List Char}
    (h : matchVarAt key s = some (m, r)) : r.length < s.length := by
  unfold matchVarAt at h
  split at h
  · simp at h
  next s1 h1 =>
    split at h
    · simp at h
    next s3 h2 =>
      split at h
      · simp at h
      next s5 h3 =>
        simp only [Option.some.injEq, Prod.mk.injEq] at h
        obtain ⟨-, hr⟩ := h
        subst hr
        have l1 := litAt_cons_length_lt h1
        have l2 := litAt_length_le h2
        have l3 := litAt_cons_length_lt h3
        have d1 := (List.dropWhile_sublist (p := isJsSpace) (l := s1)).length_le
        have d3 := (List.dropWhile_sublist (p := isJsSpace) (l := s3)).length_le
        omega

theorem matchPhAt_length_lt {s m r : List Char}
    (h : matchPhAt s = some (m, r)) : r.length < s.length := by
  unfold matchPhAt at h
  split at h
  · simp at h
  next s1 h1 =>
    simp only at h
    split at h
    · simp at h
    next w0 ws hw =>
      split at h
      · simp at h
      next s5 h3 =>
        simp only [Option.some.injEq, Prod.mk.injEq] at h
        obtain ⟨-, hr⟩ := h
        subst hr
        have l1 := litAt_cons_length_lt h1
        have l3 := litAt_cons_length_lt h3
        have d1 := (List.dropWhile_sublist (p := isJsSpace) (l := s1)).length_le
        have d2 := (List.dropWhile_sublist (p := isWordChar)
          (l := s1.dropWhile isJsSpace)).length_le
        have d3 := (List.dropWhile_sublist (p := isJsSpace)
          (l := (s1.dropWhile isJsSpace).dropWhile isWordChar)).length_le
        omega

theorem word_not_space {c : Char} (h : isWordChar c = true) :
    isJsSpace c = false := by
  simp only [isWordChar, Bool.or_eq_true, Bool.and_eq_true, decide_eq_true_eq,
    beq_iff_eq] at h
  simp only [isJsSpace, Bool.or_eq_true, Bool.and_eq_true, decide_eq_true_eq,
    beq_iff_eq]
  simp only [Bool.eq_false_iff, ne_eq, Bool.or_eq_true, Bool.and_eq_true,
    decide_eq_true_eq, beq_iff_eq]
  omega

theorem word_ne_lbrace {c : Char} (h : isWordChar c = true) : c ≠ '\x7b' := by
  intro e
  subst e
  exact absurd h (by decide)

theorem word_ne_rbrace {c : Char} (h : isWordChar c = true) : c ≠ '\x7d' := by
  intro e
  subst e
  exact absurd h (by decide)

theorem wfName_elim {n : List Char} (h : wfName n = true) :
    n ≠ [] ∧ ∀ c ∈ n, isWordChar c = true := by
  simp only [wfName, Bool.and_eq_true, Bool.not_eq_eq_eq_not, Bool.not_true,
    decide_eq_false_iff_not, List.all_eq_true] at h
  exact ⟨h.1, h.2⟩

theorem noBraces_elim {s : List Char} (h : noBraces s = true) :
    ∀ c ∈ s, c ≠ '\x7b' ∧ c ≠ '\x7d' := by
  simp only [noBraces, List.all_eq_true, Bool.and_eq_true, Bool.not_eq_eq_eq_not,
    Bool.not_true, decide_eq_false_iff_not] at h
  exact h

theorem wfName_noBraces {n : List Char} (h : wfName n = true) :
    noBraces n = true := by
  obtain ⟨-, hw⟩ := wfName_elim h
  simp only [noBraces, List.all_eq_true, Bool.and_eq_true, Bool.not_eq_eq_eq_not,
    Bool.not_true, decide_eq_false_iff_not]
  exact fun c hc => ⟨word_ne_lbrace (hw c hc), word_ne_rbrace (hw c hc)⟩

theorem litAt_self {k t : List Char} : litAt k (k ++ t) = some t := by
  induction k with
  | nil => rfl
  | cons a ks ih => simp [litAt, ih]

theorem matchVarAt_nil {key : List Char} : matchVarAt key [] = none := rfl

theorem matchVarAt_not_lbrace {key t : List Char} {c : Char} (h : c ≠ '\x7b') :
    matchVarAt key (c :: t) = none := by
  simp [matchVarAt, litAt, h]

theorem matchVarAt_second {key t : List Char} {c : Char} (h : c ≠ '\x7b') :
    matchVarAt key ('\x7b' :: c :: t) = none := by
  simp [matchVarAt, litAt, h]

theorem matchPhAt_nil : matchPhAt [] = none := rfl

theorem matchPhAt_not_lbrace {t : List Char} {c : Char} (h : c ≠ '\x7b') :
    matchPhAt (c :: t) = none := by
  simp [matchPhAt, litAt, h]

theorem renderPh_append {n t : List Char} :
    renderPh n ++ t = '\x7b' :: '\x7b' :: (n ++ ('\x7d' :: '\x7d' :: t)) := by
  simp [renderPh]

theorem matchVarAt_hit {n t : List Char} (hn : wfName n = true) :
    matchVarAt n (renderPh n ++ t) = some (renderPh n, t) := by
  obtain ⟨hne, hw⟩ := wfName_elim hn
  cases n with
  | nil => exact absurd rfl hne
  | cons c tn =>
    have hc : isJsSpace c = false := word_not_space (hw c (by simp))
    rw [renderPh_append]
    simp [matchVarAt, litAt, hc, List.dropWhile_cons, List.takeWhile_cons,
      litAt_self, renderPh, (by decide : isJsSpace '\x7d' = false)]

theorem litAt_word_cases {key n xs : List Char}
    (hk : ∀ c ∈ key, isWordChar c = true)
    (hn : ∀ c ∈ n, isWordChar c = true) :
    litAt key (n ++ '\x7d' :: xs) = none ∨ key = n ∨
      ∃ c cs, litAt key (n ++ '\x7d' :: xs) = some (c :: cs) ∧
        isWordChar c = true := by
  induction key generalizing n with
  | nil =>
    cases n with
    | nil => exact Or.inr (Or.inl rfl)
    | cons m ms =>
      refine Or.inr (Or.inr ⟨m, ms ++ '\x7d' :: xs, ?_, hn m (by simp)⟩)
      simp [litAt]
  | cons k ks ih =>
    cases n with
    | nil =>
      left
      have hk7 : k ≠ '\x7d' := word_ne_rbrace (hk k (by simp))
      simp [litAt, Ne.symm hk7]
    | cons m ms =>
      by_cases hkm : m = k
      · subst hkm
        have step : litAt (m :: ks) ((m :: ms) ++ '\x7d' :: xs) =
            litAt ks (ms ++ '\x7d' :: xs) := by simp [litAt]
        rcases ih (fun c hc => hk c (List.mem_cons_of_mem _ hc))
            (fun c hc => hn c (List.mem_cons_of_mem _ hc)) with h | h | h
        · left; rw [step, h]
        · right; left; rw [h]
        · obtain ⟨c, cs, hc, hwc⟩ := h
          exact Or.inr (Or.inr ⟨c, cs, by rw [step, hc], hwc⟩)
      · left
        simp [litAt, hkm]

theorem matchVarAt_miss {key n t : List Char} (hk : wfName key = true)
    (hn : wfName n = true) (hne : key ≠ n) :
    matchVarAt key (renderPh n ++ t) = none := by
  obtain ⟨hnn, hwn⟩ := wfName_elim hn
  obtain ⟨-, hwk⟩ := wfName_elim hk
  cases n with
  | nil => exact absurd rfl hnn
  | cons c tn =>
    have hc : isJsSpace c = false := word_not_space (hwn c (by simp))
    rw [renderPh_append]
    rcases @litAt_word_cases key (c :: tn) ('\x7d' :: t) hwk hwn with h | h | h
    · simp [matchVarAt, litAt, List.dropWhile_cons, hc] at h ⊢
      rw [h]
    · exact absurd h hne
    · obtain ⟨c2, cs, hlit, hw2⟩ := h
      have hs2 : isJsSpace c2 = false := word_not_space hw2
      have h7 : c2 ≠ '\x7d' := word_ne_rbrace hw2
      simp [matchVarAt, litAt, List.dropWhile_cons, hc] at hlit ⊢
      rw [hlit]
      simp [List.dropWhile_cons, hs2, litAt, h7]

theorem takeWhile_all_append {p : Char → Bool} {n : List Char} {x : Char}
    {xs : List Char} (hn : ∀ c ∈ n, p c = true) (hx : p x = false) :
    (n ++ x :: xs).takeWhile p = n ∧ (n ++ x :: xs).dropWhile p = x :: xs := by
  induction n with
  | nil => simp [List.takeWhile_cons, List.dropWhile_cons, hx]
  | cons a ns ih =>
    have ha : p a = true := hn a (by simp)
    obtain ⟨h1, h2⟩ := ih (fun c hc => hn c (by simp [hc]))
    simp [List.takeWhile_cons, List.dropWhile_cons, ha, h1, h2]

theorem matchPhAt_hit {n t : List Char} (hn : wfName n = true) :
    matchPhAt (renderPh n ++ t) = some (renderPh n, t) := by
  obtain ⟨hne, hw⟩ := wfName_elim hn
  cases n with
  | nil => exact absurd rfl hne
  | cons c tn =>
    have hc : isJsSpace c = false := word_not_space (hw c (by simp))
    obtain ⟨htw, hdw⟩ := @takeWhile_all_append isWordChar (c :: tn) '\x7d'
      ('\x7d' :: t) hw (by decide)
    rw [renderPh_append]
    simp only [matchPhAt, litAt, if_pos rfl, List.cons_append] at *
    simp [List.dropWhile_cons, List.takeWhile_cons, hc, htw, hdw, litAt,
      (by decide : isJsSpace '\x7d' = false), renderPh]

theorem noBraces_cons_elim {c : Char} {ls : List Char}
    (h : noBraces (c :: ls) = true) :
    c ≠ '\x7b' ∧ c ≠ '\x7d' ∧ noBraces ls = true := by
  simp only [noBraces, List.all_cons, Bool.and_eq_true, Bool.not_eq_eq_eq_not,
    Bool.not_true, decide_eq_false_iff_not] at h ⊢
  exact ⟨h.1.1, h.1.2, h.2⟩

theorem noDollar_cons_elim {c : Char} {ls : List Char}
    (h : noDollar (c :: ls) = true) : c ≠ '$' ∧ noDollar ls = true := by
  simp only [noDollar, List.all_cons, Bool.and_eq_true, Bool.not_eq_eq_eq_not,
    Bool.not_true, decide_eq_false_iff_not] at h ⊢
  exact ⟨h.1, h.2⟩

theorem expandDollar_noDollar {repl : List Char} (h : noDollar repl = true) :
    ∀ m pre post, expandDollar m pre post repl = repl := by
  induction repl with
  | nil => intro m pre post; rfl
  | cons c rest ih =>
    intro m pre post
    obtain ⟨hc, hrest⟩ := noDollar_cons_elim h
    cases rest with
    | nil => simp [expandDollar]
    | cons d rest2 => simp [expandDollar, hc, ih hrest]

theorem replGoF_nil_subject {key repl : List Char} (f : Nat) (pre : List Char) :
    replGoF key repl f pre [] = [] := by
  cases f <;> rfl

theorem replGoF_congr {key repl : List Char} :
    ∀ f1 f2 s pre, s.length ≤ f1 → s.length ≤ f2 →
      replGoF key repl f1 pre s = replGoF key repl f2 pre s := by
  intro f1
  induction f1 with
  | zero =>
    intro f2 s pre h1 _
    have : s = [] := List.eq_nil_of_length_eq_zero (by omega)
    subst this
    simp [replGoF_nil_subject]
  | succ f1 ih =>
    intro f2 s pre h1 h2
    cases s with
    | nil => simp [replGoF_nil_subject]
    | cons c rest =>
      cases f2 with
      | zero => simp at h2
      | succ f2 =>
        cases hm : matchVarAt key (c :: rest) with
        | some mp =>
          obtain ⟨m, post⟩ := mp
          have hl := matchVarAt_length_lt hm
          simp only [List.length_cons] at h1 h2 hl
          simp only [replGoF, hm]
          rw [ih f2 post (pre ++ m) (by omega) (by omega)]
        | none =>
          simp only [List.length_cons] at h1 h2
          simp only [replGoF, hm]
          rw [ih f2 rest (pre ++ [c]) (by omega) (by omega)]

theorem replaceAllVar_eq_replRun {key repl s : List Char} :
    replaceAllVar key repl s = replRun key repl [] s := rfl

theorem replRun_lit {key repl : List Char} {l : List Char}
    (hl : noBraces l = true) :
    ∀ t pre, replRun key repl pre (l ++ t) = l ++ replRun key repl (pre ++ l) t := by
  induction l with
  | nil => intro t pre; simp [replRun]
  | cons c ls ih =>
    intro t pre
    obtain ⟨hc, -, hls⟩ := noBraces_cons_elim hl
    have hm : matchVarAt key (c :: (ls ++ t)) = none := matchVarAt_not_lbrace hc
    show replGoF key repl (c :: (ls ++ t)).length pre (c :: (ls ++ t)) = _
    simp only [List.length_cons, replGoF, hm]
    have hih := ih hls t (pre ++ [c])
    simp only [replRun] at hih
    rw [hih]
    simp [replRun]

theorem replRun_skip {key repl : List Char} {c : Char} {t pre : List Char}
    (h : matchVarAt key (c :: t) = none) :
    replRun key repl pre (c :: t) = c :: replRun key repl (pre ++ [c]) t := by
  show replGoF key repl (c :: t).length pre (c :: t) = _
  simp only [List.length_cons, replGoF, h]
  rfl

theorem replRun_ph_hit {n repl t pre : List Char} (hn : wfName n = true) :
    replRun n repl pre (renderPh n ++ t) =
      expandDollar (renderPh n) pre t repl ++
        replRun n repl (pre ++ renderPh n) t := by
  have hm := matchVarAt_hit (t := t) hn
  rw [renderPh_append] at hm
  show replGoF n repl (renderPh n ++ t).length pre (renderPh n ++ t) = _
  rw [renderPh_append]
  simp only [List.length_cons, replGoF, hm]
  rw [@replGoF_congr n repl
    ((n ++ '\x7d' :: '\x7d' :: t).length + 1) t.length t (pre ++ renderPh n)
    (by simp [List.length_append]; omega) (le_refl _)]
  rfl

theorem replRun_ph_miss {key n repl : List Char} (hk : wfName key = true)
    (hn : wfName n = true) (hne : key ≠ n) :
    ∀ t pre, replRun key repl pre (renderPh n ++ t) =
      renderPh n ++ replRun key repl (pre ++ renderPh n) t := by
  intro t pre
  obtain ⟨hnn, hwn⟩ := wfName_elim hn
  have hm0 : matchVarAt key (renderPh n ++ t) = none := matchVarAt_miss hk hn hne
  cases n with
  | nil => exact absurd rfl hnn
  | cons c tn =>
    have hc : isWordChar c = true := hwn c (by simp)
    have e : renderPh (c :: tn) ++ t =
        '\x7b' :: '\x7b' :: c :: (tn ++ ('\x7d' :: '\x7d' :: t)) := by
      simp [renderPh]
    rw [e] at hm0 ⊢
    rw [replRun_skip hm0]
    rw [replRun_skip (matchVarAt_second (word_ne_lbrace hc))]
    rw [show c :: (tn ++ ('\x7d' :: '\x7d' :: t)) =
      (c :: tn) ++ ('\x7d' :: '\x7d' :: t) from by simp]
    rw [replRun_lit (wfName_noBraces hn)]
    rw [replRun_skip (matchVarAt_not_lbrace (by decide))]
    rw [replRun_skip (matchVarAt_not_lbrace (by decide))]
    simp [renderPh]

theorem findUnboundF_nil_subject (f : Nat) : findUnboundF f [] = [] := by
  cases f <;> rfl

theorem findUnboundF_congr :
    ∀ f1 f2 s, s.length ≤ f1 → s.length ≤ f2 →
      findUnboundF f1 s = findUnboundF f2 s := by
  intro f1
  induction f1 with
  | zero =>
    intro f2 s h1 _
    have : s = [] := List.eq_nil_of_length_eq_zero (by omega)
    subst this
    simp [findUnboundF_nil_subject]
  | succ f1 ih =>
    intro f2 s h1 h2
    cases s with
    | nil => simp [findUnboundF_nil_subject]
    | cons c rest =>
      cases f2 with
      | zero => simp at h2
      | succ f2 =>
        cases hm : matchPhAt (c :: rest) with
        | some mp =>
          obtain ⟨m, post⟩ := mp
          have hl := matchPhAt_length_lt hm
          simp only [List.length_cons] at h1 h2 hl
          simp only [findUnboundF, hm]
          rw [ih f2 post (by omega) (by omega)]
        | none =>
          simp only [List.length_cons] at h1 h2
          simp only [findUnboundF, hm]
          exact ih f2 rest (by omega) (by omega)

theorem findUnbound_skip {c : Char} {t : List Char}
    (h : matchPhAt (c :: t) = none) : findUnbound (c :: t) = findUnbound t := by
  show findUnboundF (c :: t).length (c :: t) = _
  simp only [List.length_cons, findUnboundF, h]
  rfl

theorem findUnbound_lit {l : List Char} (hl : noBraces l = true) :
    ∀ t, findUnbound (l ++ t) = findUnbound t := by
  induction l with
  | nil => intro t; rfl
  | cons c ls ih =>
    intro t
    obtain ⟨hc, -, hls⟩ := noBraces_cons_elim hl
    rw [List.cons_append, findUnbound_skip (matchPhAt_not_lbrace hc)]
    exact ih hls t

theorem findUnbound_ph {n t : List Char} (hn : wfName n = true) :
    findUnbound (renderPh n ++ t) = renderPh n :: findUnbound t := by
  have hm := matchPhAt_hit (t := t) hn
  rw [renderPh_append] at hm
  show findUnboundF (renderPh n ++ t).length (renderPh n ++ t) = _
  rw [renderPh_append]
  simp only [List.length_cons, findUnboundF, hm]
  rw [findUnboundF_congr ((n ++ '\x7d' :: '\x7d' :: t).length + 1) t.length t
    (by simp [List.length_append]; omega) (le_refl _)]
  rfl

theorem renderTpl_nil : renderTpl [] = [] := rfl

theorem renderTpl_cons {s : Seg} {rest : List Seg} :
    renderTpl (s :: rest) = renderSeg s ++ renderTpl rest := by
  simp [renderTpl]

theorem wfTpl_cons_elim {s : Seg} {rest : List Seg}
    (h : wfTpl (s :: rest) = true) : wfSeg s = true ∧ wfTpl rest = true := by
  simp only [wfTpl, List.all_cons, Bool.and_eq_true] at h
  exact h

theorem findUnbound_renderTpl {segs : List Seg} (h : wfTpl segs = true) :
    findUnbound (renderTpl segs) = segs.filterMap phToken := by
  induction segs with
  | nil => rfl
  | cons s rest ih =>
    obtain ⟨hs, hrest⟩ := wfTpl_cons_elim h
    rw [renderTpl_cons]
    cases s with
    | lit l =>
      simp only [wfSeg] at hs
      simp only [renderSeg]
      rw [findUnbound_lit hs, ih hrest]
      simp [phToken]
    | ph n =>
      simp only [wfSeg] at hs
      simp only [renderSeg]
      rw [findUnbound_ph hs, ih hrest]
      simp [phToken]

theorem replRun_renderTpl {key val : List Char} {segs : List Seg}
    (hT : wfTpl segs = true) (hk : wfName key = true)
    (hb : noBraces val = true) (hd : noDollar val = true) :
    ∀ pre, replRun key val pre (renderTpl segs) =
      renderTpl (segs.map (substSeg key val)) := by
  induction segs with
  | nil => intro pre; rfl
  | cons s rest ih =>
    intro pre
    obtain ⟨hs, hrest⟩ := wfTpl_cons_elim hT
    rw [renderTpl_cons]
    cases s with
    | lit l =>
      simp only [wfSeg] at hs
      simp only [renderSeg]
      rw [replRun_lit hs, ih hrest]
      simp [renderTpl_cons, substSeg, renderSeg]
    | ph n =>
      simp only [wfSeg] at hs
      simp only [renderSeg]
      by_cases hnk : n = key
      · subst hnk
        rw [replRun_ph_hit hs, expandDollar_noDollar hd, ih hrest]
        simp [renderTpl_cons, substSeg, renderSeg]
      · rw [replRun_ph_miss hk hs (Ne.symm hnk), ih hrest]
        simp [renderTpl_cons, substSeg, renderSeg, hnk]

theorem wfBindings_cons_elim {kv : List Char × List Char} {bs : Bindings}
    (h : wfBindings (kv :: bs) = true) :
    wfName kv.1 = true ∧ noBraces kv.2 = true ∧ noDollar kv.2 = true ∧
      wfBindings bs = true := by
  simp only [wfBindings, List.all_cons, Bool.and_eq_true, wfBinding] at h
  exact ⟨h.1.1.1, h.1.1.2, h.1.2, h.2⟩

theorem wfTpl_substSeg {key val : List Char} {segs : List Seg}
    (hT : wfTpl segs = true) (hb : noBraces val = true) :
    wfTpl (segs.map (substSeg key val)) = true := by
  simp only [wfTpl, List.all_map, List.all_eq_true] at hT ⊢
  intro s hs
  have := hT s hs
  cases s with
  | lit l => simpa [substSeg, Function.comp] using this
  | ph n =>
    by_cases hnk : n = key
    · simp [substSeg, Function.comp, hnk, wfSeg, hb]
    · simpa [substSeg, Function.comp, hnk, wfSeg] using this

theorem substituteVars_renderTpl {bs : Bindings} :
    ∀ segs : List Seg, wfTpl segs = true → wfBindings bs = true →
      substituteVars (renderTpl segs) bs =
        renderTpl (bs.foldl (fun sg kv => sg.map (substSeg kv.1 kv.2)) segs) := by
  induction bs with
  | nil => intro segs _ _; rfl
  | cons kv bs ih =>
    intro segs hT hB
    obtain ⟨hk, hb, hd, hB'⟩ := wfBindings_cons_elim hB
    show substituteVars (renderTpl segs) (kv :: bs) = _
    have step : replaceAllVar kv.1 kv.2 (renderTpl segs) =
        renderTpl (segs.map (substSeg kv.1 kv.2)) := by
      rw [replaceAllVar_eq_replRun]
      exact replRun_renderTpl hT hk hb hd []
    calc substituteVars (renderTpl segs) (kv :: bs)
        = substituteVars (replaceAllVar kv.1 kv.2 (renderTpl segs)) bs := rfl
      _ = substituteVars (renderTpl (segs.map (substSeg kv.1 kv.2))) bs := by
          rw [step]
      _ = renderTpl (bs.foldl (fun sg kv => sg.map (substSeg kv.1 kv.2))
            (segs.map (substSeg kv.1 kv.2))) :=
          ih _ (wfTpl_substSeg hT hb) hB'
      _ = _ := rfl

theorem substAll_lit {bs : Bindings} {s : List Char} :
    substAll bs (.lit s) = .lit s := by
  induction bs with
  | nil => rfl
  | cons kv bs ih => simpa [substAll, substSeg] using ih

theorem substAll_cons {kv : List Char × List Char} {bs : Bindings} {s : Seg} :
    substAll (kv :: bs) s = substAll bs (substSeg kv.1 kv.2 s) := rfl

theorem foldl_map_substAll {bs : Bindings} :
    ∀ segs : List Seg,
      bs.foldl (fun sg kv => sg.map (substSeg kv.1 kv.2)) segs =
        segs.map (substAll bs) := by
  induction bs with
  | nil =>
    intro segs
    have he : (substAll ([] : Bindings)) = id := funext fun s => rfl
    rw [he, List.map_id]
    rfl
  | cons kv bs ih =>
    intro segs
    show bs.foldl _ (segs.map (substSeg kv.1 kv.2)) = _
    rw [ih]
    simp only [List.map_map]
    rfl

theorem substAll_ph_unbound {bs : Bindings} {n : List Char}
    (h : hasKey bs n = false) : substAll bs (.ph n) = .ph n := by
  induction bs with
  | nil => rfl
  | cons kv bs ih =>
    simp only [hasKey] at h
    split at h
    · simp at h
    · next hne =>
      rw [substAll_cons]
      simp only [substSeg, if_neg (Ne.symm hne)]
      exact ih h

theorem substAll_ph_bound {bs : Bindings} {n : List Char}
    (h : hasKey bs n = true) (hB : wfBindings bs = true) :
    ∃ v, substAll bs (.ph n) = .lit v ∧ noBraces v = true := by
  induction bs with
  | nil => simp [hasKey] at h
  | cons kv bs ih =>
    obtain ⟨-, hb, -, hB'⟩ := wfBindings_cons_elim hB
    simp only [hasKey] at h
    rw [substAll_cons]
    split at h
    · next he =>
      simp only [substSeg, if_pos he.symm]
      exact ⟨kv.2, substAll_lit, hb⟩
    · next hne =>
      simp only [substSeg, if_neg (Ne.symm hne)]
      exact ih h hB'

theorem filterMap_phToken_substAll {bs : Bindings} (hB : wfBindings bs = true) :
    ∀ segs : List Seg,
      (segs.map (substAll bs)).filterMap phToken =
        segs.filterMap (unboundTok bs) := by
  intro segs
  induction segs with
  | nil => rfl
  | cons s rest ih =>
    simp only [List.map_cons, List.filterMap_cons]
    cases s with
    | lit l =>
      rw [substAll_lit]
      simpa [phToken, unboundTok] using ih
    | ph n =>
      cases hk : hasKey bs n with
      | true =>
        obtain ⟨v, hv, -⟩ := substAll_ph_bound hk hB
        rw [hv]
        simpa [phToken, unboundTok, hk] using ih
      | false =>
        rw [substAll_ph_unbound hk]
        simpa [phToken, unboundTok, hk] using ih

theorem wfTpl_substAll {bs : Bindings} :
    ∀ segs : List Seg, wfTpl segs = true → wfBindings bs = true →
      wfTpl (segs.map (substAll bs)) = true := by
  induction bs with
  | nil =>
    intro segs hT _
    have he : (substAll ([] : Bindings)) = id := funext fun s => rfl
    rw [he, List.map_id]
    exact hT
  | cons kv bs ih =>
    intro segs hT hB
    obtain ⟨-, hb, -, hB'⟩ := wfBindings_cons_elim hB
    have : segs.map (substAll (kv :: bs)) =
        (segs.map (substSeg kv.1 kv.2)).map (substAll bs) := by
      simp only [List.map_map]
      rfl
    rw [this]
    exact ih _ (wfTpl_substSeg hT hb) hB'

theorem mergeVars_nil {d : Bindings} : mergeVars d [] = d := by
  simp [mergeVars, lookupVar]

theorem findUnbound_substituteVars {segs : List Seg} {bs : Bindings}
    (hT : wfTpl segs = true) (hB : wfBindings bs = true) :
    findUnbound (substituteVars (renderTpl segs) bs) =
      segs.filterMap (unboundTok bs) := by
  rw [substituteVars_renderTpl segs hT hB, foldl_map_substAll,
    findUnbound_renderTpl (wfTpl_substAll segs hT hB),
    filterMap_phToken_substAll hB]

theorem except_map_eq_ok {ε α β : Type} {e : Except ε α} {f : α → β} {b : β}
    (h : e.map f = .ok b) : ∃ a, e = .ok a ∧ b = f a := by
  cases e with
  | error e2 => simp [Except.map] at h
  | ok a =>
    refine ⟨a, rfl, ?_⟩
    simp only [Except.map, Except.ok.injEq] at h
    exact h.symm

theorem fromOpts_inSync {ok : JSchema → Bool} {o : PromptOptions} {p : Prompt}
    (h : fromOpts ok o = .ok p) : inSync p := by
  unfold fromOpts at h
  split at h
  · injection h with h2
    subst h2
    rfl
  · split at h
    · injection h with h2
      subst h2
      rfl
    · exact absurd h (by simp)

theorem stepOp_inSync {ok : JSchema → Bool} {p : Prompt} {op : Op}
    (hp : inSync p) (hb : (stepOp ok p op).2 = true) :
    inSync (stepOp ok p op).1 := by
  cases op with
  | opText t => simpa [stepOp, textSet, inSync] using hp
  | opDefaults d => simpa [stepOp, defaultsSet, inSync] using hp
  | opSchema s =>
    cases hok : ok s with
    | true => simp [stepOp, schemaSet, hok, inSync]
    | false => simp [stepOp, schemaSet, hok] at hb
  | opVars m =>
    simp only [stepOp] at hb ⊢
    cases hv : varsMethod ok p m with
    | error e =>
      rw [hv] at hb
      simp at hb
    | ok q =>
      unfold varsMethod at hv
      obtain ⟨q2, hf, hq⟩ := except_map_eq_ok hv
      have hs := fromOpts_inSync hf
      subst hq
      simpa [inSync] using hs
  | opUsing g => simpa [stepOp, usingGen, inSync] using hp

theorem runOps_inSync {ok : JSchema → Bool} :
    ∀ (ops : List Op) (p : Prompt), inSync p →
      (runOps ok p ops).2 = true → inSync (runOps ok p ops).1 := by
  intro ops
  induction ops with
  | nil => intro p hp _; exact hp
  | cons op rest ih =>
    intro p hp hall
    simp only [runOps, Bool.and_eq_true] at hall ⊢
    exact ih _ (stepOp_inSync hp hall.1) hall.2

/-- C1 (amended): for every well-formed template with at least one
placeholder lacking an effective binding (bindings well formed: word keys,
brace- and dollar-free values), `resolvePrompt` fails with the
missing-binding error listing every unresolved placeholder occurrence, in
order of appearance in the substituted text — one entry per occurrence, so a
name repeated in the template is listed repeatedly. -/
theorem c1_missing_binding_lists_occurrences (segs : List Seg) (bs : Bindings)
    (sch : Option JSchema) (gen : Option Nat) (vld : Option JSchema)
    (fmt : List Char) (hT : wfTpl segs = true) (hB : wfBindings bs = true)
    (hMiss : segs.filterMap (unboundTok bs) ≠ []) :
    resolvePrompt ⟨some (renderTpl segs), bs, sch, none, gen, vld, fmt⟩ none =
      .error (missingVarsMsg (segs.filterMap (unboundTok bs))) := by
  simp only [resolvePrompt, Option.getD_some, Option.getD_none]
  rw [mergeVars_nil, findUnbound_substituteVars hT hB]
  cases hu : segs.filterMap (unboundTok bs) with
  | nil => exact absurd hu hMiss
  | cons u us => simp

/-- C1 counterexample to the claim as stated: with the template consisting of
the unbound placeholder `a` twice, the error message lists the token for `a`
twice — the listing has duplicates, not one deduplicated entry per name. -/
theorem c1_claim_counterexample :
    resolvePrompt c1Prompt none =
      .error ("Missing template variables or default values: " ++
        "\x7b\x7ba\x7d\x7d, \x7b\x7ba\x7d\x7d").toList := rfl

/-- C1 witness: the amended theorem applied at a concrete template with an
unbound first placeholder. -/
theorem c1_missing_witness :
    resolvePrompt ⟨some (renderTpl c1WitnessSegs), c1WitnessBindings, none,
      none, none, none, "json".toList⟩ none =
      .error (missingVarsMsg
        (c1WitnessSegs.filterMap (unboundTok c1WitnessBindings))) :=
  c1_missing_binding_lists_occurrences c1WitnessSegs c1WitnessBindings none
    none none "json".toList (by decide) (by decide) (by decide)

/-- C2: the engine configured exactly as in the repository test — template
`List (num) books by (name).` with placeholders, defaults num=3, pre-bound
name George Orwell, and the array-of-books schema — renders to exactly the
expected text with the two-space-indented structural skeleton. -/
theorem c2_render_exact : c2Engine.map promptToString = .ok (.ok c2Expected) :=
  rfl

/-- C3 (amended): reconstructing an engine from its serialized record with
any backend preserves template, defaults and schema exactly, and resolving
with explicit variables yields the same text — provided the engine's
response-format label is the default `json` (the record does not carry the
format, so a non-default format is lost; see the counterexample). -/
theorem c3_roundtrip_preserves_config (ok : JSchema → Bool) (p : Prompt)
    (g : Nat) (v : Bindings) (hfmt : p.format = "json".toList)
    (hok : ∀ s, p.schema = some s → ok s = true) :
    ∃ q, fromJSON ok (toJSON p) g = .ok q ∧ q.text = p.text ∧
      q.defaults = p.defaults ∧ q.schema = p.schema ∧
      resolvePrompt q (some v) = resolvePrompt p (some v) := by
  cases p with
  | mk t d sch vr gen vld fmt =>
    simp only at hfmt hok
    subst hfmt
    cases sch with
    | none =>
      exact ⟨⟨t, d, none, none, some g, none, "json".toList⟩, rfl, rfl, rfl,
        rfl, rfl⟩
    | some s =>
      have hs : ok s = true := hok s rfl
      refine ⟨⟨t, d, some s, none, some g, some s, "json".toList⟩, ?_, rfl,
        rfl, rfl, rfl⟩
      simp [fromJSON, fromOpts, toJSON, usingGen, hs, Except.map]

/-- C3 counterexample to the claim as stated: an engine with format `csv`
and a schema round-trips to an engine that renders a `json` directive, so
the resolved texts differ. -/
theorem c3_claim_counterexample :
    fromJSON okAll (toJSON csvPrompt) 0 = .ok csvReconstructed ∧
    resolvePrompt csvReconstructed (some []) ≠
      resolvePrompt csvPrompt (some []) := by
  refine ⟨rfl, ?_⟩
  intro h
  have h2 := Except.ok.inj h
  exact absurd h2 (by decide)

/-- C3 witness: the amended round-trip theorem at a fully configured engine
with the default format. -/
theorem c3_roundtrip_witness :
    ∃ q, fromJSON okAll (toJSON c3WitnessPrompt) 2 = .ok q ∧
      q.text = c3WitnessPrompt.text ∧
      q.defaults = c3WitnessPrompt.defaults ∧
      q.schema = c3WitnessPrompt.schema ∧
      resolvePrompt q (some [("k".toList, "z".toList)]) =
        resolvePrompt c3WitnessPrompt (some [("k".toList, "z".toList)]) :=
  c3_roundtrip_preserves_config okAll c3WitnessPrompt 2
    [("k".toList, "z".toList)] rfl (fun _ _ => rfl)

/-- C4 (amended): along any operation sequence in which every schema
compilation succeeds, the engine never holds a validator out of sync with
its schema.  When a compilation fails, the error propagates but the engine
is left with the new schema paired with the previous validator (see the
counterexample), so the claimed atomicity holds only on the success path. -/
theorem c4_schema_validator_sync (ok : JSchema → Bool) (o : PromptOptions)
    (p0 : Prompt) (ops : List Op) (h0 : fromOpts ok o = .ok p0)
    (hall : (runOps ok p0 ops).2 = true) : inSync (runOps ok p0 ops).1 :=
  runOps_inSync ops p0 (fromOpts_inSync h0) hall

/-- C4 counterexample to the claim as stated: calling `schema` with a schema
the compiler rejects throws, but only after `this._schema` was assigned —
the failed call leaves the new schema paired with the stale validator. -/
theorem c4_claim_counterexample :
    (schemaSet okRejectBogus c4Prompt bogusSchema).2 = false ∧
    (schemaSet okRejectBogus c4Prompt bogusSchema).1.schema =
      some bogusSchema ∧
    (schemaSet okRejectBogus c4Prompt bogusSchema).1.validator =
      some stringSchema ∧
    ¬ inSync (schemaSet okRejectBogus c4Prompt bogusSchema).1 := by
  refine ⟨rfl, rfl, rfl, ?_⟩
  intro h
  have h2 : stringSchema = bogusSchema := by
    have h3 : (some stringSchema : Option JSchema) = some bogusSchema := h
    exact Option.some.inj h3
  unfold stringSchema bogusSchema at h2
  injection h2 with h3
  exact absurd h3 (by decide)

/-- C4 witness: the sync invariant along a sequence exercising every
operation, all compilations succeeding. -/
theorem c4_sync_witness : inSync (runOps okAll basePrompt c4WitnessOps).1 :=
  c4_schema_validator_sync okAll emptyOpts basePrompt c4WitnessOps rfl
    (by decide)

/-- C5 (amended): the derive-with-variables operation does not mutate the
shared engine (the returned state of the original object equals its previous
state), but set-schema mutates the shared object in place — after the call
every holder of the reference observes the new schema. -/
theorem c5_copy_semantics (ok : JSchema → Bool) (p : Prompt) (m : Bindings)
    (q : Prompt × Prompt) (s : JSchema) (h : varsMethod ok p m = .ok q) :
    q.1 = p ∧ (schemaSet ok p s).1.schema = some s := by
  constructor
  · obtain ⟨q2, -, hq⟩ := except_map_eq_ok h
    subst hq
    rfl
  · unfold schemaSet
    split <;> rfl

/-- C5 counterexample to the claim as stated: `schema` mutates the shared
engine — the second holder of the reference observes a schema where there
was none. -/
theorem c5_claim_counterexample :
    c5Prompt.schema = none ∧
    (schemaSet okAll c5Prompt stringSchema).1.schema = some stringSchema ∧
    (schemaSet okAll c5Prompt stringSchema).1.schema ≠ c5Prompt.schema := by
  refine ⟨rfl, rfl, ?_⟩
  intro h
  have h2 : (some stringSchema : Option JSchema) = none := h
  exact Option.noConfusion h2

/-- C5 witness: the amended theorem at a concrete shared engine. -/
theorem c5_copy_witness :
    (c5Prompt, c5Derived).1 = c5Prompt ∧
    (schemaSet okAll c5Prompt stringSchema).1.schema = some stringSchema :=
  c5_copy_semantics okAll c5Prompt [] (c5Prompt, c5Derived) stringSchema rfl

/-- C6 (amended): `vars` returns a fresh engine with the same template,
defaults and schema (with the validator recompiled from that schema), the
given pre-bound variable set, and does not mutate the original — but the new
engine has no bound backend and the default `json` format, because `toJSON`
serializes neither (see the counterexample). -/
theorem c6_vars_copy_config (ok : JSchema → Bool) (p : Prompt) (m : Bindings)
    (q : Prompt × Prompt) (h : varsMethod ok p m = .ok q) :
    q.1 = p ∧ q.2.text = p.text ∧ q.2.defaults = p.defaults ∧
    q.2.schema = p.schema ∧ q.2.validator = p.schema ∧ q.2.vars = some m ∧
    q.2.generator = none ∧ q.2.format = "json".toList := by
  obtain ⟨q2, hf, hq⟩ := except_map_eq_ok h
  subst hq
  cases hs : p.schema with
  | none =>
    rw [show toJSON p = ⟨none, p.text, none, some p.defaults, none⟩ from by
      simp [toJSON, hs]] at hf
    simp only [fromOpts, Option.getD_some] at hf
    injection hf with hf2
    subst hf2
    exact ⟨rfl, rfl, rfl, by simp [hs], by simp [hs], rfl, rfl, rfl⟩
  | some s =>
    rw [show toJSON p = ⟨none, p.text, some s, some p.defaults, none⟩ from by
      simp [toJSON, hs]] at hf
    simp only [fromOpts, Option.getD_some] at hf
    split at hf
    · injection hf with hf2
      subst hf2
      exact ⟨rfl, rfl, rfl, by simp [hs], by simp [hs], rfl, rfl, rfl⟩
    · exact absurd hf (by simp)

/-- C6 counterexample to the claim as stated: the derived engine does not
keep the bound backend — `toJSON` omits the generator, so the copy has
none. -/
theorem c6_claim_counterexample :
    varsMethod okAll c6Prompt [] = .ok (c6Prompt, c6Derived) ∧
    c6Prompt.generator = some 5 ∧ c6Derived.generator = none ∧
    c6Derived.generator ≠ c6Prompt.generator := by
  refine ⟨rfl, rfl, rfl, ?_⟩
  intro h
  have h2 : (none : Option Nat) = some 5 := h
  exact Option.noConfusion h2

/-- C6 witness: the amended theorem at a concrete engine with a bound
backend. -/
theorem c6_vars_copy_witness :
    (c6Prompt, c6Derived).1 = c6Prompt ∧
    (c6Prompt, c6Derived).2.text = c6Prompt.text ∧
    (c6Prompt, c6Derived).2.defaults = c6Prompt.defaults ∧
    (c6Prompt, c6Derived).2.schema = c6Prompt.schema ∧
    (c6Prompt, c6Derived).2.validator = c6Prompt.schema ∧
    (c6Prompt, c6Derived).2.vars = some [] ∧
    (c6Prompt, c6Derived).2.generator = none ∧
    (c6Prompt, c6Derived).2.format = "json".toList :=
  c6_vars_copy_config okAll c6Prompt [] (c6Prompt, c6Derived) rfl

/-- C7 (amended): for a well-formed template (brace-free literal text,
word-character placeholder names) and well-formed bindings (brace- and
dollar-free values) covering every placeholder, `resolvePrompt` succeeds and
the substituted text contains zero placeholder-shaped tokens.  Without the
value restriction the claim fails: a bound value may itself contain a
placeholder token (see the counterexample). -/
theorem c7_covered_resolves (segs : List Seg) (bs : Bindings)
    (gen : Option Nat) (vld : Option JSchema) (fmt : List Char)
    (hT : wfTpl segs = true) (hB : wfBindings bs = true)
    (hCov : segs.all (fun sg => match sg with
      | .ph n => hasKey bs n
      | .lit _ => true) = true) :
    resolvePrompt ⟨some (renderTpl segs), bs, none, none, gen, vld, fmt⟩ none =
      .ok (substituteVars (renderTpl segs) bs) ∧
    findUnbound (substituteVars (renderTpl segs) bs) = [] := by
  have hnil : segs.filterMap (unboundTok bs) = [] := by
    rw [List.filterMap_eq_nil_iff]
    intro sg hsg
    have hc := (List.all_eq_true.mp hCov) sg hsg
    cases sg with
    | lit l => rfl
    | ph n =>
      simp only at hc
      simp [unboundTok, hc]
  have hU : findUnbound (substituteVars (renderTpl segs) bs) = [] := by
    rw [findUnbound_substituteVars hT hB, hnil]
  refine ⟨?_, hU⟩
  simp only [resolvePrompt, Option.getD_some, Option.getD_none]
  rw [mergeVars_nil, hU]

/-- C7 counterexample to the claim as stated: the only placeholder of the
template is bound, yet `resolvePrompt` fails, because the bound value itself
contains a placeholder-shaped token that survives substitution. -/
theorem c7_claim_counterexample :
    hasKey c7Prompt.defaults "a".toList = true ∧
    findUnbound (c7Prompt.text.getD []) = ["\x7b\x7ba\x7d\x7d".toList] ∧
    resolvePrompt c7Prompt none =
      .error (missingVarsMsg ["\x7b\x7bb\x7d\x7d".toList]) := by
  refine ⟨rfl, rfl, rfl⟩

/-- C7 witness: the amended theorem at a covered concrete template. -/
theorem c7_covered_witness :
    resolvePrompt ⟨some (renderTpl c7WitnessSegs), c7WitnessBindings, none,
      none, none, none, "json".toList⟩ none =
      .ok (substituteVars (renderTpl c7WitnessSegs) c7WitnessBindings) ∧
    findUnbound (substituteVars (renderTpl c7WitnessSegs)
      c7WitnessBindings) = [] :=
  c7_covered_resolves c7WitnessSegs c7WitnessBindings none none
    "json".toList (by decide) (by decide) (by decide)

/-- C8: `generate` checks for a bound backend first — with none it fails with
the no-generator error regardless of the template or variables (before any
resolution, and without invoking any backend), and with a backend bound this
error never occurs. -/
theorem c8_no_generator_precondition (p : Prompt) (v : Option Bindings) :
    (p.generator = none →
      generateStart p v = .noGeneratorError noGeneratorMsg) ∧
    (p.generator ≠ none →
      ∀ m, generateStart p v ≠ .noGeneratorError m) := by
  constructor
  · intro h
    simp [generateStart, h]
  · intro h m
    cases hg : p.generator with
    | none => exact absurd hg h
    | some g =>
      simp only [generateStart, hg]
      cases resolvePrompt p v <;> simp

/-- C8 witness: an engine with an unresolvable template and no backend fails
with the no-generator error (not a resolution error), while an engine with a
backend does not produce that error. -/
theorem c8_no_generator_witness :
    generateStart c8NoGen none = .noGeneratorError noGeneratorMsg ∧
    generateStart c8WithGen none ≠ .noGeneratorError noGeneratorMsg :=
  ⟨(c8_no_generator_precondition c8NoGen none).1 rfl,
   (c8_no_generator_precondition c8WithGen none).2 (by decide) noGeneratorMsg⟩

/-- C9: with a schema configured and a decoded response violating more than
one constraint, the validation failure message joins the message of every
diagnostic the compiled validator reports — all of them, not only the
first.  The validator is the external Ajv capability, modelled from the
spec as reporting the list of field-level diagnostics. -/
theorem c9_validation_enumerates (errorsOf : JVal → List (List Char))
    (p : Prompt) (s s2 : JSchema) (d : JVal) (txt perr : List Char)
    (h1 : p.schema = some s) (h2 : p.validator = some s2)
    (herr : 2 ≤ (errorsOf d).length) :
    afterBackend errorsOf p (some d) txt perr =
      .error (invalidDataMsg (errorsOf d)) := by
  have hne : errorsOf d ≠ [] := by
    intro e
    rw [e] at herr
    simp at herr
  simp [afterBackend, h1, h2, validateData, hne]

/-- C9 witness: a response decoding to the empty object violates both
required properties of `resultSchema`; the failure message joins both
reported diagnostics. -/
theorem c9_validation_witness :
    afterBackend errorsTwo c9Prompt (some (.obj .fnil)) [] [] =
      .error (invalidDataMsg (errorsTwo (.obj .fnil))) :=
  c9_validation_enumerates errorsTwo c9Prompt resultSchema resultSchema
    (.obj .fnil) [] [] rfl rfl (by decide)

/-- C10: binding values are not inserted verbatim — a value `$&` expands to
the matched placeholder token itself (here making `resolvePrompt` fail even
though the placeholder is bound), a value containing a placeholder token is
itself substituted by a later binding, and such a token with no later
binding triggers the missing-binding error although every template
placeholder was covered. -/
theorem c10_substitution_not_verbatim :
    substituteVars c10Tpl c10DollarPrompt.defaults = c10Tpl ∧
    substituteVars c10Tpl c10DollarPrompt.defaults ≠ "$&".toList ∧
    resolvePrompt c10DollarPrompt none = .error (missingVarsMsg [c10Tpl]) ∧
    resolvePrompt c10ChainPrompt none = .ok "X".toList ∧
    hasKey c10MissPrompt.defaults "a".toList = true ∧
    resolvePrompt c10MissPrompt none =
      .error (missingVarsMsg ["\x7b\x7bc\x7d\x7d".toList]) := by
  refine ⟨rfl, by decide, rfl, rfl, rfl, rfl⟩

end Prompting
